import Mathlib

/-!
Shallow embedding of the GROMACS trajectory-archive I/O layer
(`src/gromacs/fileio/h5md_io.cpp` together with the block interface of
`src/gromacs/fileio/h5md_datablock.h`) and of the legacy file-handle
registry (`src/gmxlib/gmxfio.c`), with theorems settling the behavioural
claims about those two subsystems.

Conventions used throughout:
* machine integers (`int`, `int64_t`, `hid_t`) are modelled as `Int`;
  none of the modelled operations can overflow, as they only compare and
  copy values;
* the C++ `real` type (a float or a double, here only ever stored and
  compared, never combined arithmetically) is modelled as `ℚ`;
* fallible operations (`throw gmx::FileIOError`, `gmx_fatal`) are
  modelled with `Except String`;
* the HDF5 storage layer is compiled in (`GMX_USE_HDF5` true) and
  environmental storage failures (a failing `H5Fflush`, a failing
  `fseek`) are modelled through an explicit environment flag or as
  succeeding, as noted at each definition.
-/

namespace H5md

/-- The sentinel `std::numeric_limits of int64_t ... max()` used by
`GmxH5mdIo::getNextStepAndTimeToRead` as the initial minimum. -/
def int64Max : Int := 9223372036854775807

/-- The value `std::numeric_limits of real ... max()` (the double-precision
build is modelled: `DBL_MAX = (2^53 - 1) * 2^971`, written out as a
numeral so that concrete evaluation reduces). -/
def realMax : ℚ := 179769313486231570814527423731704356798070567525844996598917476803157260780028538760589558632766878171540458953514382464234321326889464182768467546703537516986049910576551282076245490090389328944075868508455133942304583236903222948165808559332123348274797826204144723168738177180919299881250404026184124858368

/-- One H5MD time-dependent data block (`GmxH5mdTimeDataBlock`,
`h5md_datablock.h`): a named triple of step/time/value data sets with a
writing cursor and an independent reading cursor.  The bulk value payload
is not modelled; the step and time streams are modelled as lists indexed
by frame number.  `writingFrameIndex` is the number of written frames
(the next frame to write), `readingFrameIndex` the next frame to read. -/
structure TimeDataBlock where
  fullName : String
  writingInterval : Int
  steps : List Int
  times : List ℚ
  writingFrameIndex : Nat
  readingFrameIndex : Nat
deriving DecidableEq

namespace TimeDataBlock

/-- Write a value `x` into slot `i` of a stream, extending the stream with
the fill value `fill` if the slot lies beyond the current extent (chunked
HDF5 storage extension). -/
def setSlot {α : Type} : List α → Nat → α → α → List α
  | [], 0, x, _ => [x]
  | [], n + 1, x, fill => fill :: setSlot [] n x fill
  | _ :: t, 0, x, _ => x :: t
  | h :: t, n + 1, x, fill => h :: setSlot t n x fill

/-- Modelled from the spec (the implementation file of
`GmxH5mdTimeDataBlock` is not in the source tree): `writeFrame(data, step,
time)` computes the target frame index from `writingInterval` if a
positive interval was configured (`step / writingInterval`, truncating C
division) and otherwise uses `writingFrameIndex`; it writes `step` and
`time` into the parallel streams at that slot and advances
`writingFrameIndex` to the slot plus one when that is greater.  A
negative computed slot is not specified by the spec and is modelled as
leaving the streams unchanged. -/
def writeFrame (b : TimeDataBlock) (step : Int) (time : ℚ) : TimeDataBlock :=
  let f : Int :=
    if 0 < b.writingInterval then Int.tdiv step b.writingInterval
    else (b.writingFrameIndex : Int)
  if 0 ≤ f then
    { b with
      steps := setSlot b.steps f.toNat step 0
      times := setSlot b.times f.toNat time 0
      writingFrameIndex := max b.writingFrameIndex (f.toNat + 1) }
  else b

/-- Modelled from the spec: `numberOfFrames()` returns
`writingFrameIndex_`. -/
def numberOfFrames (b : TimeDataBlock) : Int := (b.writingFrameIndex : Int)

/-- Modelled from the spec: random-access lookup into the time stream;
undefined for out-of-range frames (modelled as returning `0` there). -/
def getTimeOfFrame (b : TimeDataBlock) (frame : Int) : ℚ :=
  b.times.getD frame.toNat 0

/-- Modelled from the spec: random-access lookup into the step stream;
undefined for out-of-range frames (modelled as returning `0` there). -/
def getStepOfFrame (b : TimeDataBlock) (frame : Int) : Int :=
  b.steps.getD frame.toNat 0

/-- Modelled from the spec: the step of the next unread frame, or `-1`
when every written frame has already been read (the callers in
`h5md_io.cpp` rely on a negative result to mean that the block has no
unread frame left). -/
def getStepOfNextReadingFrame (b : TimeDataBlock) : Int :=
  if b.readingFrameIndex < b.writingFrameIndex then
    b.getStepOfFrame (b.readingFrameIndex : Int)
  else -1

/-- Modelled from the spec: `readNextFrame` reads frame
`readingFrameIndex` (returning `false` without error when that frame is
at or beyond the written high-water mark) and on success advances the
reading cursor.  The payload delivered into the caller buffer is not
modelled. -/
def readNextFrame (b : TimeDataBlock) : Bool × TimeDataBlock :=
  if b.readingFrameIndex < b.writingFrameIndex then
    (true, { b with readingFrameIndex := b.readingFrameIndex + 1 })
  else (false, b)

end TimeDataBlock

/-- The archive container (`GmxH5mdIo`): the HDF5 file handle (`-1` when
closed), the file mode, and the discovered/created data blocks in
insertion order (`std::list of GmxH5mdTimeDataBlock dataBlocks_`). -/
structure Container where
  file : Int
  filemode : Char
  dataBlocks : List TimeDataBlock
deriving DecidableEq

namespace Container

/-- A freshly constructed and still unopened `GmxH5mdIo` (constructor
with empty file name: `file_ = -1`). -/
def unopened : Container := { file := -1, filemode := 'n', dataBlocks := [] }

/-- The block constructed at the block-creation point of
`GmxH5mdIo::writeDataFrame`: its cursors start at zero and no frame has
been written yet.  The source splits `dataBlockFullName` at the last
separator into a group and a leaf name and the constructed block's
`fullName()` is their rejoining, i.e. the original full path (the code
re-finds the block by that full path right after construction and throws
if the re-find fails, so the rejoined name equalling the full path is
what the code itself checks). -/
def newBlock (path : String) (interval : Int) : TimeDataBlock :=
  { fullName := path, writingInterval := interval, steps := [], times := [],
    writingFrameIndex := 0, readingFrameIndex := 0 }

/-- The lookup-and-write step of `GmxH5mdIo::writeDataFrame`:
`std::find(dataBlocks_.begin(), dataBlocks_.end(), fullName)` locates the
first block whose `fullName()` equals the wanted path
(`GmxH5mdTimeDataBlock::operator==` compares by full path) and
`foundDataBlock->writeFrame(...)` writes through that iterator; `none`
models `std::find` reaching `end()`. -/
def writeToFirstMatch : List TimeDataBlock → String → Int → ℚ →
    Option (List TimeDataBlock)
  | [], _, _, _ => none
  | b :: rest, path, step, time =>
    if b.fullName = path then some (b.writeFrame step time :: rest)
    else
      match writeToFirstMatch rest path step time with
      | some rest2 => some (b :: rest2)
      | none => none

/-- The function `GmxH5mdIo::writeDataFrame`: look the full path up among the data
blocks; if it is absent, construct a new block and append it
(`dataBlocks_.emplace_back`), re-find it (throwing when the re-find
fails), then write the frame through the found iterator.  The value
payload, unit and compression arguments do not affect the block mapping
and the payload is not modelled; `interval` is the constructor argument
that initializes the new block's writing interval. -/
def writeDataFrame (c : Container) (step : Int) (time : ℚ) (path : String)
    (interval : Int) : Except String Container :=
  match writeToFirstMatch c.dataBlocks path step time with
  | some bs => .ok { c with dataBlocks := bs }
  | none =>
    let blocks := c.dataBlocks ++ [newBlock path interval]
    match writeToFirstMatch blocks path step time with
    | some bs => .ok { c with dataBlocks := bs }
    | none => .error "Error creating data block when writing frame."

/-- A sequence of `writeDataFrame` calls naming the same path, with no
intervening discovery. -/
def writeSeq (c : Container) (path : String) (interval : Int) :
    List (Int × ℚ) → Except String Container
  | [] => .ok c
  | w :: ws =>
    match writeDataFrame c w.1 w.2 path interval with
    | .ok c2 => writeSeq c2 path interval ws
    | .error e => .error e

/-- The loop body of `GmxH5mdIo::readNextFrameOfDataBlock`: scan the
blocks for the first one whose `fullName()` equals the wanted path; on a
match, read the next frame when `stepToRead` is negative or equals the
block's next unread step, and otherwise return `false`; when no block
matches, return `false`. -/
def readLoop : List TimeDataBlock → String → Int → Bool × List TimeDataBlock
  | [], _, _ => (false, [])
  | b :: rest, path, stepToRead =>
    if b.fullName = path then
      if stepToRead < 0 ∨ b.getStepOfNextReadingFrame = stepToRead then
        let r := b.readNextFrame
        (r.1, r.2 :: rest)
      else (false, b :: rest)
    else
      let r := readLoop rest path stepToRead
      (r.1, b :: r.2)

/-- The function `GmxH5mdIo::readNextFrameOfDataBlock` (HDF5 branch): returns whether
a frame was read, and the updated container. -/
def readNextFrameOfDataBlock (c : Container) (path : String)
    (stepToRead : Int) : Bool × Container :=
  let r := readLoop c.dataBlocks path stepToRead
  (r.1, { c with dataBlocks := r.2 })

/-- The loop body of `GmxH5mdIo::getNextStepAndTimeToRead`: a block whose
next unread step is non-negative and strictly below the minimum found so
far updates both the minimum step and the reported time. -/
def stepFold (acc : Int × ℚ) (b : TimeDataBlock) : Int × ℚ :=
  let frameStep := b.getStepOfNextReadingFrame
  if 0 ≤ frameStep ∧ frameStep < acc.1 then
    (frameStep, b.getTimeOfFrame (b.readingFrameIndex : Int))
  else acc

/-- The function `GmxH5mdIo::getNextStepAndTimeToRead`: scan all blocks, starting from
the sentinels `int64Max` and `realMax`. -/
def getNextStepAndTimeToRead (c : Container) : Int × ℚ :=
  c.dataBlocks.foldl stepFold (int64Max, realMax)

/-- The loop body of `GmxH5mdIo::getFirstTimeFromAllDataBlocks`: every
block (regardless of its frame count) contributes the time of its frame
0 to a running minimum, and sets the found flag. -/
def firstTimeFold (acc : ℚ × Bool) (b : TimeDataBlock) : ℚ × Bool :=
  (min acc.1 (b.getTimeOfFrame 0), true)

/-- The function `GmxH5mdIo::getFirstTimeFromAllDataBlocks`: the minimum starts at
`realMax`; when no block was seen the sentinel `-1` is returned. -/
def getFirstTimeFromAllDataBlocks (c : Container) : ℚ :=
  let r := c.dataBlocks.foldl firstTimeFold (realMax, false)
  if r.2 then r.1 else -1

/-- The loop body of `GmxH5mdIo::getFinalTimeFromAllDataBlocks`: blocks
with fewer than one frame are skipped; the others contribute the time of
their last written frame to a running maximum. -/
def finalTimeFold (acc : ℚ × Bool) (b : TimeDataBlock) : ℚ × Bool :=
  if b.numberOfFrames < 1 then acc
  else (max acc.1 (b.getTimeOfFrame (b.numberOfFrames - 1)), true)

/-- The function `GmxH5mdIo::getFinalTimeFromAllDataBlocks`: the maximum starts at
`0`; when no contributing block was seen the sentinel `-1` is
returned. -/
def getFinalTimeFromAllDataBlocks (c : Container) : ℚ :=
  let r := c.dataBlocks.foldl finalTimeFold (0, false)
  if r.2 then r.1 else -1

/-- Observable side effects of closing/flushing a container. -/
structure CloseEvents where
  flushed : Bool
  provenanceAppended : Bool
  closedBlocks : List String
  releasedFile : Bool
deriving DecidableEq

/-- The empty event record: nothing was flushed, closed or released. -/
def noEvents : CloseEvents :=
  { flushed := false, provenanceAppended := false, closedBlocks := [],
    releasedFile := false }

/-- The function `GmxH5mdIo::closeFile`: when the container handle is valid
(`file_ >= 0`) it flushes (which appends a provenance record in write or
append mode and can fail when the storage flush fails, modelled by
`flushFails`), closes every owned block's data sets, closes the file and
invalidates the handle; otherwise it does nothing.  The destructor calls
it exactly on the `file_ != -1` states. -/
def closeFile (c : Container) (flushFails : Bool) :
    Except String (Container × CloseEvents) :=
  if 0 ≤ c.file then
    if flushFails then .error "Error flushing H5MD."
    else
      .ok ({ c with file := -1 },
        { flushed := true,
          provenanceAppended := c.filemode = 'w' ∨ c.filemode = 'a',
          closedBlocks := c.dataBlocks.map (fun b => b.fullName),
          releasedFile := true })
  else .ok (c, noEvents)

end Container

end H5md

namespace Gmxfio

/-- The file types named in `gmxfio.c` (from the `filenm.h` enumeration):
the XDR set `ftpXDR`, the ASCII set `ftpASC`, the plain-binary set
`ftpBIN`, the debug-file marker `efNR`, and a representative other type
(`efLOG`) standing for the remaining entries of the table. -/
inductive Ftp where
  | efTPR | efTRR | efEDR | efXTC | efMTX | efCPT
  | efTPA | efGRO | efPDB
  | efTPB | efTRJ
  | efLOG
  | efNR
deriving DecidableEq

/-- Membership in the `ftpXDR` list of `gmxfio.c` (the iterated
`in_ftpset(fio->iFTP, asize(ftpXDR), ftpXDR)` test). -/
def isXdrFtp : Ftp → Bool
  | .efTPR | .efTRR | .efEDR | .efXTC | .efMTX | .efCPT => true
  | _ => false

/-- Modelled from the spec (the extension-to-type table of `filenm.c` is
not in the source tree): whether `ftp2ftype` classifies the type as
`"ASCII"` — the types of the `ftpASC` list, plus the log file standing
for the other text formats. -/
def isAsciiFtp : Ftp → Bool
  | .efTPA | .efGRO | .efPDB | .efLOG => true
  | _ => false

/-- The underlying OS stream of a handle: the file bytes written so far
and the current position, as reported by `gmx_ftell`. -/
structure FileData where
  bytes : List Nat
  pos : Nat
deriving DecidableEq

/-- One registry handle (`t_fileio`, `gmxfio_int.h` as used by
`gmxfio.c`): file type, name, mode flags, standard-stream flag, open
flag, debug flag, the large-offset marker, and the OS stream (`fp`,
`none` when the handle has no stream).  The XDR stream is determined by
the file type; the per-handle lock is modelled separately for the
traversal claims.  `uid` stands for the node's identity (its address). -/
structure Fio where
  uid : Nat
  iFTP : Ftp
  fn : String
  bRead : Bool
  bReadWrite : Bool
  bStdio : Bool
  bOpen : Bool
  bDebug : Bool
  bLargerThanOffT : Bool
  fp : Option FileData
deriving DecidableEq

/-- The registry of open handles: the circular doubly linked list with
its sentinel is modelled by the list of non-sentinel nodes in insertion
order (`gmx_fio_insert` splices a new node right before the sentinel,
i.e. appends it). -/
abbrev Registry := List Fio

/-- The mode-string grammar of the spec: the six accepted stems. -/
def grammarModes : List (List Char) :=
  [['r'], ['r', '+'], ['w'], ['w', '+'], ['a', '+'], ['a']]

/-- The mode-sanitizing head of `mpi_fio_open`: for a `TPA`-typed path
the mode is copied verbatim with no validation; otherwise the mode is
normalized to one of the six stems by its first one or two characters,
and any other mode string is a fatal usage error (`gmx_fatal`,
"DEATH HORROR"). -/
def sanitizeMode (ftp : Ftp) (mode : List Char) : Except String (List Char) :=
  if ftp = .efTPA then .ok mode
  else if mode.take 2 = ['r', '+'] then .ok ['r', '+']
  else if mode.headD (Char.ofNat 0) = 'r' then .ok ['r']
  else if mode.take 2 = ['w', '+'] then .ok ['w', '+']
  else if mode.headD (Char.ofNat 0) = 'w' then .ok ['w']
  else if mode.take 2 = ['a', '+'] then .ok ['a', '+']
  else if mode.headD (Char.ofNat 0) = 'a' then .ok ['a']
  else .error "DEATH HORROR in gmx_fio_open"

/-- The binary-marker step of `mpi_fio_open`: when the file type is not
classified as ASCII and the mode does not already contain a binary
marker, a `b` is appended. -/
def addBinaryMarker (ftp : Ftp) (newmode : List Char) : List Char :=
  if ¬ isAsciiFtp ftp ∧ ¬ 'b' ∈ newmode ∧ ¬ 'B' ∈ newmode then
    newmode ++ ['b']
  else newmode

/-- The handle allocated by `mpi_fio_open`: its `bRead` and `bReadWrite`
flags are derived from the first two characters of the sanitized mode
(`newmode[0] == 'r' && newmode[1] != '+'` and `newmode[1] == '+'`), it
is open, not a standard stream, and carries a fresh OS stream. -/
def openedFio (uid : Nat) (ftp : Ftp) (fn : String) (newmode : List Char) : Fio :=
  { uid := uid, iFTP := ftp, fn := fn,
    bRead := newmode.headD (Char.ofNat 0) = 'r'
               ∧ newmode.getD 1 (Char.ofNat 0) ≠ '+',
    bReadWrite := newmode.getD 1 (Char.ofNat 0) = '+',
    bStdio := false, bOpen := true, bDebug := false,
    bLargerThanOffT := false,
    fp := some { bytes := [], pos := 0 } }

/-- The function `mpi_fio_open` with a non-null file name and no domain decomposition
(the `gmx_fio_open` entry point): sanitize the mode, add the binary
marker, allocate the handle with its flags derived from the sanitized
mode (`openedFio` above), open the OS stream (modelled as a fresh empty
stream) and append the handle to the registry.  The result carries the
handle, the mode string handed to `ffopen`, and the new registry. -/
def mpi_fio_open (reg : Registry) (uid : Nat) (ftp : Ftp) (fn : String)
    (mode : List Char) : Except String (Fio × List Char × Registry) :=
  match sanitizeMode ftp mode with
  | .error e => .error e
  | .ok stem =>
    let newmode := addBinaryMarker ftp stem
    let fio := openedFio uid ftp fn newmode
    .ok (fio, newmode, reg ++ [fio])

/-- Observable side effects of `gmx_fio_close_locked` on the handle's
streams. -/
structure CloseStreams where
  closedXdr : Bool
  closedFp : Bool
deriving DecidableEq

/-- The function `gmx_fio_close_locked`: a handle whose open flag is already cleared
is a fatal usage error ("closed twice"); otherwise the XDR stream is
destroyed for XDR-typed handles, the OS stream is closed unless it is a
standard stream, and the open flag is cleared. -/
def gmx_fio_close_locked (fio : Fio) : Except String (Fio × CloseStreams) :=
  if fio.bOpen = false then
    .error ("File " ++ fio.fn ++ " closed twice")
  else
    .ok ({ fio with bOpen := false },
      { closedXdr := isXdrFtp fio.iFTP,
        closedFp := ¬ fio.bStdio ∧ fio.fp.isSome })

/-- The function `gmx_fio_close`: under the coarse structural lock, remove the node
from the list (`gmx_fio_remove` splices out exactly that node), then run
the locked close (whose double-close check is fatal), then free the
handle.  The result carries the registry without the node and the
stream-closing effects; the fatal path carries the message. -/
def gmx_fio_close (reg : Registry) (fio : Fio) :
    Except String (Registry × Fio × CloseStreams) :=
  let reg2 := reg.eraseP (fun g => g.uid = fio.uid)
  match gmx_fio_close_locked fio with
  | .error e => .error e
  | .ok r => .ok (reg2, r.1, r.2)

/-- The checkpoint checksum window of `gmx_fio_int_get_file_md5`
(`CPT_CHK_LEN`). -/
def CPT_CHK_LEN : Nat := 1048576

/-- The md5 digest (`md5.c` is not in the source tree and the digest
value itself is opaque to every claim): the model keeps the exact byte
sequence handed to `md5_append`, which is what the claims constrain. -/
def md5Digest (bytes : List Nat) : List Nat := bytes

/-- The function `gmx_fio_int_get_file_md5` on a locked handle: seek to
`offset - CPT_CHK_LEN` clamped at zero (a seek only attempted — and the
whole computation only possible — when the handle has a stream and is
read-write), read `offset - seek_offset` bytes, and digest them; a
missing stream, a non-read-write handle or a short read yields `-1`
instead of a digest size.  The environmental `fseek` failure branch is
modelled as the seek succeeding; the short-read degradation is modelled
by the stream holding fewer bytes than the offset. -/
def gmx_fio_int_get_file_md5 (fio : Fio) (offset : Nat) : Int × List Nat :=
  let seek_offset := offset - min offset CPT_CHK_LEN
  let read_len := offset - seek_offset
  match fio.fp with
  | some f =>
    if fio.bReadWrite then
      let data := (f.bytes.drop seek_offset).take read_len
      if data.length = read_len then ((read_len : Int), md5Digest data)
      else (-1, [])
    else (-1, [])
  | none => (-1, [])

/-- The function `gmx_fio_int_get_file_position`: flush, then report `gmx_ftell` of
the OS stream.  The claims only apply it to handles whose stream exists;
a missing stream is modelled as position `0`. -/
def filePosition (fio : Fio) : Nat :=
  match fio.fp with
  | some f => f.pos
  | none => 0

/-- One snapshot entry of `gmx_fio_get_output_file_positions`
(`gmx_file_position_t`): file name, offset, checksum size and digest. -/
structure FilePos where
  filename : String
  offset : Int
  chksum_size : Int
  chksum : List Nat
deriving DecidableEq

/-- The handle filter of the `gmx_fio_get_output_file_positions` loop:
open, not read-mode, not a standard stream, not a checkpoint file and
not a debug file. -/
def outputFileFilter (fio : Fio) : Bool :=
  fio.bOpen ∧ ¬ fio.bRead ∧ ¬ fio.bStdio ∧ fio.iFTP ≠ .efCPT ∧ fio.iFTP ≠ .efNR

/-- The per-handle snapshot taken inside the loop: a handle whose offset
outgrew the offset type gets the `-1` sentinels; otherwise the position
is taken and the checksum computed over the window before it. -/
def snapshotOf (fio : Fio) : FilePos :=
  if fio.bLargerThanOffT then
    { filename := fio.fn, offset := -1, chksum_size := -1, chksum := [] }
  else
    let off := filePosition fio
    let md5r := gmx_fio_int_get_file_md5 fio off
    { filename := fio.fn, offset := (off : Int), chksum_size := md5r.1,
      chksum := md5r.2 }

/-- The traversal loop of `gmx_fio_get_output_file_positions`: walk every
handle via the `get_first`/`get_next` protocol, appending one snapshot
for every handle passing the filter; checksum failures leave their `-1`
in the entry and the walk continues. -/
def outputPositionsLoop : List Fio → List FilePos → List FilePos
  | [], acc => acc
  | cur :: rest, acc =>
    if outputFileFilter cur then outputPositionsLoop rest (acc ++ [snapshotOf cur])
    else outputPositionsLoop rest acc

/-- The function `gmx_fio_get_output_file_positions`. -/
def gmx_fio_get_output_file_positions (reg : Registry) : List FilePos :=
  outputPositionsLoop reg []

/-- The function `gmx_fio_seek`: the returned status `rc` is modelled as
`Option Int`, `none` standing for the local variable never having been
assigned.  When the handle has an OS stream the code performs
`gmx_fseek` and returns `rc` without ever assigning it; when it has
none, `gmx_file(fio->fn)` raises a fatal error (the `rc = -1` after it
is dead code). -/
def gmx_fio_seek (fio : Fio) (fpos : Nat) :
    Except String (Option Int × Fio) :=
  match fio.fp with
  | some f => .ok (none, { fio with fp := some { f with pos := fpos } })
  | none => .error fio.fn

/-- The lock state visible to the traversal protocol of `gmxfio.c`: the
coarse `open_file_mutex`, the sentinel node's per-handle lock, and the
per-handle locks currently held, over the registry nodes listed by
`uid` in list order. -/
structure TraverseState where
  regUids : List Nat
  coarseHeld : Bool
  sentinelLocked : Bool
  locked : List Nat
deriving DecidableEq

/-- The function `gmx_fio_get_first`: lock the coarse mutex, make the dummy head if
needed, lock the sentinel, take the sentinel's successor; when that
successor is the sentinel itself (empty registry) return `none` —
unlocking only the sentinel, not the coarse mutex; otherwise lock the
first node, unlock the sentinel and return it. -/
def gmx_fio_get_first (st : TraverseState) : Option Nat × TraverseState :=
  let st1 : TraverseState := { st with coarseHeld := true, sentinelLocked := true }
  match st1.regUids with
  | [] => (none, { st1 with sentinelLocked := false })
  | first :: _ =>
    (some first,
      { st1 with sentinelLocked := false, locked := st1.locked ++ [first] })

/-- The successor of a node in the list of registry nodes; `none` when
the successor is the sentinel (end of the traversal). -/
def nextAfter : List Nat → Nat → Option Nat
  | [], _ => none
  | [x], cur => if x = cur then none else none
  | x :: y :: rest, cur =>
    if x = cur then some y else nextAfter (y :: rest) cur

/-- The function `gmx_fio_get_next`: take the current node's successor; when it is
the sentinel, unlock the coarse mutex and return `none`; otherwise lock
the successor; in both cases unlock the current node. -/
def gmx_fio_get_next (st : TraverseState) (cur : Nat) :
    Option Nat × TraverseState :=
  match nextAfter st.regUids cur with
  | none =>
    (none, { st with coarseHeld := false, locked := st.locked.erase cur })
  | some nxt =>
    (some nxt, { st with locked := (st.locked ++ [nxt]).erase cur })

/-- The function `gmx_fio_stop_getting_next`: unlock the current node and the coarse
mutex (early termination of a traversal). -/
def gmx_fio_stop_getting_next (st : TraverseState) (cur : Nat) :
    TraverseState :=
  { st with coarseHeld := false, locked := st.locked.erase cur }

/-- A representative open log-file handle with an OS stream, used to
evaluate `gmx_fio_seek` at a concrete input. -/
def fioC9 : Fio :=
  { uid := 0, iFTP := .efLOG, fn := "md.log", bRead := false,
    bReadWrite := false, bStdio := false, bOpen := true, bDebug := false,
    bLargerThanOffT := false, fp := some { bytes := [], pos := 0 } }

/-- The lock state before any traversal, with an empty registry. -/
def emptyTraverseState : TraverseState :=
  { regUids := [], coarseHeld := false, sentinelLocked := false, locked := [] }

end Gmxfio

namespace H5md

/-- C5: closing an archive container is idempotent — a close on an
already-closed (or never-opened) container (`file_ = -1`) is a no-op
that raises no error and changes no observable state, whatever the
storage environment does; the first close on an open container flushes,
closes every owned block's data sets and releases the container
handle. -/
theorem closeFile_idempotent (c : Container) :
    (c.file < 0 → ∀ ff : Bool, c.closeFile ff = .ok (c, Container.noEvents)) ∧
    (∀ c2 ev, c.closeFile false = .ok (c2, ev) →
      ∀ ff : Bool, c2.closeFile ff = .ok (c2, Container.noEvents)) ∧
    (0 ≤ c.file → ∃ ev,
      c.closeFile false = .ok ({ c with file := -1 }, ev) ∧
      ev.flushed = true ∧
      ev.closedBlocks = c.dataBlocks.map (fun b => b.fullName) ∧
      ev.releasedFile = true) := by
  refine ⟨?_, ?_, ?_⟩
  · intro hc ff
    simp only [Container.closeFile, if_neg (by omega : ¬ 0 ≤ c.file)]
  · intro c2 ev h ff
    by_cases hc : 0 ≤ c.file
    · simp only [Container.closeFile, if_pos hc, if_neg Bool.false_ne_true] at h
      cases h
      simp [Container.closeFile]
    · simp only [Container.closeFile, if_neg hc] at h
      cases h
      simp only [Container.closeFile, if_neg hc]
  · intro hc
    refine ⟨{ flushed := true,
              provenanceAppended := c.filemode = 'w' ∨ c.filemode = 'a',
              closedBlocks := c.dataBlocks.map (fun b => b.fullName),
              releasedFile := true }, ?_, rfl, rfl, rfl⟩
    simp only [Container.closeFile, if_pos hc, if_neg Bool.false_ne_true]

/-- Witness for C5: a concrete open container in write mode with one
block; both hypotheses of the theorem are discharged at it. -/
theorem closeFile_idempotent_witness :
    (0 : Int) ≤ 3 ∧
    (∃ ev,
      Container.closeFile
        { file := 3, filemode := 'w',
          dataBlocks := [Container.newBlock "/particles/system/position" 0] }
        false =
        .ok ({ file := -1, filemode := 'w',
               dataBlocks := [Container.newBlock "/particles/system/position" 0] }, ev) ∧
      ev.flushed = true ∧
      ev.closedBlocks = ["/particles/system/position"] ∧
      ev.releasedFile = true) :=
  ⟨by decide,
    (closeFile_idempotent
      { file := 3, filemode := 'w',
        dataBlocks := [Container.newBlock "/particles/system/position" 0] }).2.2
      (by decide)⟩

end H5md

namespace Gmxfio

/-- C6: closing a registry handle whose open flag is already cleared is
a fatal usage error carrying a descriptive message (never a silent
no-op); the first close on an open handle removes exactly that node from
the registry, closes its streams (the XDR stream for XDR-typed handles,
the OS stream unless it is a standard stream) and clears the open
flag. -/
theorem gmx_fio_close_spec (reg : Registry) (fio : Fio) :
    (fio.bOpen = false →
      gmx_fio_close reg fio = .error ("File " ++ fio.fn ++ " closed twice")) ∧
    (fio.bOpen = true →
      gmx_fio_close reg fio =
        .ok (reg.eraseP (fun g => g.uid = fio.uid),
          { fio with bOpen := false },
          { closedXdr := isXdrFtp fio.iFTP,
            closedFp := ¬ fio.bStdio ∧ fio.fp.isSome })) ∧
    (fio.bOpen = true → fio ∈ reg →
      ∃ out, gmx_fio_close reg fio = .ok out ∧ out.1.length + 1 = reg.length) := by
  refine ⟨?_, ?_, ?_⟩
  · intro h
    simp [gmx_fio_close, gmx_fio_close_locked, h]
  · intro h
    simp [gmx_fio_close, gmx_fio_close_locked, h]
  · intro h hmem
    have heq : gmx_fio_close reg fio =
        .ok (reg.eraseP (fun g => g.uid = fio.uid),
          { fio with bOpen := false },
          { closedXdr := isXdrFtp fio.iFTP,
            closedFp := ¬ fio.bStdio ∧ fio.fp.isSome }) := by
      simp [gmx_fio_close, gmx_fio_close_locked, h]
    refine ⟨_, heq, ?_⟩
    have hlen : (reg.eraseP (fun g => g.uid = fio.uid)).length = reg.length - 1 :=
      List.length_eraseP_of_mem hmem (by simp)
    have hpos : 0 < reg.length := List.length_pos.mpr (by rintro rfl; cases hmem)
    simp only [hlen]
    omega

/-- Witness for C6: a concrete registry with one open trajectory handle;
all three hypotheses of the theorem are discharged at it. -/
theorem gmx_fio_close_spec_witness :
    (gmx_fio_close [fioC9] { fioC9 with bOpen := false } =
      .error ("File " ++ fioC9.fn ++ " closed twice")) ∧
    (∃ out, gmx_fio_close [fioC9] fioC9 = .ok out ∧ out.1.length + 1 = 1) :=
  ⟨(gmx_fio_close_spec [fioC9] { fioC9 with bOpen := false }).1 rfl,
    (gmx_fio_close_spec [fioC9] fioC9).2.2 rfl (by simp)⟩

/-- C7 counterexample: for a `TPA`-typed path the mode string is copied
verbatim with no validation, so the unrecognized mode `"x"` — which the
claim requires to be a fatal contract violation for every file path —
opens a handle successfully instead. -/
theorem mpi_fio_open_tpa_no_mode_check :
    ∃ out, mpi_fio_open [] 0 .efTPA "conf.tpa" ['x'] = .ok out :=
  ⟨_, rfl⟩

/-- C7 (amended): for every file path whose type is not the `TPA` type,
a mode string beginning with none of `r`, `w`, `a` is a fatal usage
error; and every mode string of the grammar (for any file type) is
normalized — a binary marker `b` is appended exactly for the
non-ASCII-classified types — and opens a handle that is appended to the
registry with its open flag set. -/
theorem mpi_fio_open_spec (reg : Registry) (uid : Nat) (ftp : Ftp)
    (fn : String) (mode : List Char) :
    (ftp ≠ .efTPA → mode.headD (Char.ofNat 0) ≠ 'r' →
      mode.headD (Char.ofNat 0) ≠ 'w' → mode.headD (Char.ofNat 0) ≠ 'a' →
      mpi_fio_open reg uid ftp fn mode = .error "DEATH HORROR in gmx_fio_open") ∧
    (ftp ≠ .efTPA → mode ∈ grammarModes →
      ∃ fio, mpi_fio_open reg uid ftp fn mode =
          .ok (fio, mode ++ (if isAsciiFtp ftp then [] else ['b']), reg ++ [fio]) ∧
        fio.bOpen = true ∧ fio.fn = fn ∧ fio.iFTP = ftp) := by
  constructor
  · intro hftp hr hw ha
    cases mode with
    | nil =>
      simp only [List.headD] at hr hw ha
      simp [mpi_fio_open, sanitizeMode, hftp, hr, hw, ha]
    | cons x xs =>
      simp only [List.headD] at hr hw ha
      simp [mpi_fio_open, sanitizeMode, hftp, hr, hw, ha]
  · intro hftp hmode
    have hsan : sanitizeMode ftp mode = .ok mode := by
      simp only [grammarModes, List.mem_cons, List.not_mem_nil, or_false] at hmode
      rcases hmode with h | h | h | h | h | h <;>
        simp [sanitizeMode, hftp, h]
    have hmarker : addBinaryMarker ftp mode =
        mode ++ (if isAsciiFtp ftp then [] else ['b']) := by
      have hnob : ¬ 'b' ∈ mode ∧ ¬ 'B' ∈ mode := by
        simp only [grammarModes, List.mem_cons, List.not_mem_nil, or_false] at hmode
        rcases hmode with h | h | h | h | h | h <;> simp [h]
      by_cases hascii : isAsciiFtp ftp
      · simp [addBinaryMarker, hascii]
      · simp [addBinaryMarker, hascii, hnob.1, hnob.2]
    refine ⟨openedFio uid ftp fn (addBinaryMarker ftp mode), ?_, rfl, rfl, rfl⟩
    rw [← hmarker]
    simp only [mpi_fio_open, hsan]

/-- Witness for C7: the fatal branch at a trajectory file with mode
`"x"`, and the success branch at a trajectory file with mode `"w"`
(non-ASCII, so the marker is appended). -/
theorem mpi_fio_open_spec_witness :
    (mpi_fio_open [] 0 .efTRR "traj.trr" ['x'] =
      .error "DEATH HORROR in gmx_fio_open") ∧
    (∃ fio, mpi_fio_open [] 0 .efTRR "traj.trr" ['w'] =
        .ok (fio, ['w'] ++ (if isAsciiFtp .efTRR then [] else ['b']), [] ++ [fio]) ∧
      fio.bOpen = true ∧ fio.fn = "traj.trr" ∧ fio.iFTP = .efTRR) :=
  ⟨(mpi_fio_open_spec [] 0 .efTRR "traj.trr" ['x']).1 (by decide) (by decide)
      (by decide) (by decide),
    (mpi_fio_open_spec [] 0 .efTRR "traj.trr" ['w']).2 (by decide) (by decide)⟩

/-- C9: evaluating `gmx_fio_seek` at a handle whose OS stream is
non-null shows that the seek is performed but the returned status is the
never-assigned local `rc` (modelled `none`): the function's result is
not a well-defined status value. -/
theorem gmx_fio_seek_rc_uninitialized :
    gmx_fio_seek fioC9 17 =
      .ok (none, { fioC9 with fp := some { bytes := [], pos := 17 } }) := rfl

/-- C10: on an empty registry, `gmx_fio_get_first` yields no handle but
leaves the coarse structural lock held (first two conjuncts) — whereas
the traversal protocol's own completion step `gmx_fio_get_next` does
release the coarse lock when it yields no handle (third conjunct), so a
traversal begun on an empty registry leaves the coarse lock permanently
held and any subsequent open, close or traversal deadlocks. -/
theorem gmx_fio_get_first_empty_leaks_lock :
    (gmx_fio_get_first emptyTraverseState).1 = none ∧
    (gmx_fio_get_first emptyTraverseState).2.coarseHeld = true ∧
    (gmx_fio_get_next
      { regUids := [1], coarseHeld := true, sentinelLocked := false,
        locked := [1] } 1).2.coarseHeld = false := by
  refine ⟨rfl, rfl, rfl⟩

end Gmxfio

namespace H5md

theorem writeFrame_fullName (b : TimeDataBlock) (s : Int) (t : ℚ) :
    (b.writeFrame s t).fullName = b.fullName := by
  simp only [TimeDataBlock.writeFrame]
  split <;> first | rfl | (split <;> rfl)

theorem writeToFirstMatch_none (l : List TimeDataBlock) (path : String)
    (s : Int) (t : ℚ) (h : ∀ b ∈ l, b.fullName ≠ path) :
    Container.writeToFirstMatch l path s t = none := by
  induction l with
  | nil => rfl
  | cons b rest ih =>
    simp only [Container.writeToFirstMatch]
    rw [if_neg (h b (by simp)), ih (fun x hx => h x (by simp [hx]))]

theorem writeToFirstMatch_append (l : List TimeDataBlock)
    (b0 : TimeDataBlock) (path : String) (s : Int) (t : ℚ)
    (h : ∀ b ∈ l, b.fullName ≠ path) (hb : b0.fullName = path) :
    Container.writeToFirstMatch (l ++ [b0]) path s t =
      some (l ++ [b0.writeFrame s t]) := by
  induction l with
  | nil => simp [Container.writeToFirstMatch, hb]
  | cons b rest ih =>
    simp only [List.cons_append, Container.writeToFirstMatch, List.append_eq]
    rw [if_neg (h b (by simp)), ih (fun x hx => h x (by simp [hx]))]

theorem writeDataFrame_new (c : Container) (path : String) (interval : Int)
    (s : Int) (t : ℚ) (h : ∀ b ∈ c.dataBlocks, b.fullName ≠ path) :
    c.writeDataFrame s t path interval =
      .ok { c with dataBlocks :=
        c.dataBlocks ++ [(Container.newBlock path interval).writeFrame s t] } := by
  simp only [Container.writeDataFrame, writeToFirstMatch_none _ _ _ _ h]
  rw [writeToFirstMatch_append c.dataBlocks (Container.newBlock path interval)
    path s t h rfl]

theorem writeSeq_single (c : Container) (path : String) (interval : Int)
    (ws : List (Int × ℚ)) :
    ∀ b : TimeDataBlock, b.fullName = path →
      (∀ x ∈ c.dataBlocks, x.fullName ≠ path) →
      ∃ b2 : TimeDataBlock, b2.fullName = path ∧
        Container.writeSeq { c with dataBlocks := c.dataBlocks ++ [b] }
            path interval ws =
          .ok { c with dataBlocks := c.dataBlocks ++ [b2] } := by
  induction ws with
  | nil => exact fun b hb _ => ⟨b, hb, rfl⟩
  | cons w ws ih =>
    intro b hb h
    have hw : Container.writeDataFrame
        { c with dataBlocks := c.dataBlocks ++ [b] } w.1 w.2 path interval =
        .ok { c with dataBlocks := c.dataBlocks ++ [b.writeFrame w.1 w.2] } := by
      unfold Container.writeDataFrame
      rw [writeToFirstMatch_append _ _ _ _ _ h hb]
    obtain ⟨b2, hb2, hres⟩ :=
      ih (b.writeFrame w.1 w.2) (by rw [writeFrame_fullName, hb]) h
    exact ⟨b2, hb2, by simp only [Container.writeSeq, hw, hres]⟩

/-- C1: starting from a container whose block mapping has no block for a
given full path, any non-empty sequence of `writeDataFrame` calls naming
that path (with no intervening discovery) succeeds and appends exactly
one new block for that path — the first call creates it, every later
call writes through the same block — so afterwards the mapping holds
exactly one block whose full path matches, and every pre-existing block
is untouched. -/
theorem writeDataFrame_single_block (c : Container) (path : String)
    (interval : Int) (ws : List (Int × ℚ))
    (hnone : ∀ b ∈ c.dataBlocks, b.fullName ≠ path) (hne : ws ≠ []) :
    ∃ b : TimeDataBlock, b.fullName = path ∧
      Container.writeSeq c path interval ws =
        .ok { c with dataBlocks := c.dataBlocks ++ [b] } ∧
      (c.dataBlocks ++ [b]).countP (fun x => x.fullName = path) = 1 := by
  cases ws with
  | nil => exact absurd rfl hne
  | cons w ws =>
    have hw := writeDataFrame_new c path interval w.1 w.2 hnone
    obtain ⟨b2, hb2, hres⟩ :=
      writeSeq_single c path interval ws
        ((Container.newBlock path interval).writeFrame w.1 w.2)
        (by rw [writeFrame_fullName]; rfl) hnone
    refine ⟨b2, hb2, by simp only [Container.writeSeq, hw, hres], ?_⟩
    rw [List.countP_append]
    have h0 : c.dataBlocks.countP (fun x => x.fullName = path) = 0 :=
      List.countP_eq_zero.mpr (fun x hx => by simpa using hnone x hx)
    simp [h0, hb2]

/-- Witness for C1: two writes at steps 0 and 10 to the unseen path of a
position block in a fresh container leave exactly one block there. -/
theorem writeDataFrame_single_block_witness :
    (∀ b ∈ Container.unopened.dataBlocks,
      b.fullName ≠ "/particles/system/position") ∧
    ([((0 : Int), (0 : ℚ)), (10, 1)] ≠ ([] : List (Int × ℚ))) ∧
    (∃ b : TimeDataBlock, b.fullName = "/particles/system/position" ∧
      Container.writeSeq Container.unopened "/particles/system/position" 0
          [((0 : Int), (0 : ℚ)), (10, 1)] =
        .ok { Container.unopened with
              dataBlocks := Container.unopened.dataBlocks ++ [b] } ∧
      (Container.unopened.dataBlocks ++ [b]).countP
        (fun x => x.fullName = "/particles/system/position") = 1) :=
  ⟨by simp [Container.unopened], by decide,
    writeDataFrame_single_block Container.unopened "/particles/system/position"
      0 [((0 : Int), (0 : ℚ)), (10, 1)] (by simp [Container.unopened]) (by decide)⟩

theorem readLoop_no_match (l : List TimeDataBlock) (path : String)
    (st : Int) (h : ∀ b ∈ l, b.fullName ≠ path) :
    Container.readLoop l path st = (false, l) := by
  induction l with
  | nil => rfl
  | cons b rest ih =>
    simp only [Container.readLoop]
    rw [if_neg (h b (by simp)), ih (fun x hx => h x (by simp [hx]))]

theorem readLoop_first_match (pre : List TimeDataBlock) (b : TimeDataBlock)
    (post : List TimeDataBlock) (path : String) (st : Int)
    (hpre : ∀ x ∈ pre, x.fullName ≠ path) (hb : b.fullName = path) :
    Container.readLoop (pre ++ b :: post) path st =
      if st < 0 ∨ b.getStepOfNextReadingFrame = st then
        ((b.readNextFrame).1, pre ++ (b.readNextFrame).2 :: post)
      else (false, pre ++ b :: post) := by
  induction pre with
  | nil =>
    simp only [List.nil_append, Container.readLoop, if_pos hb]
  | cons x rest ih =>
    simp only [List.cons_append, Container.readLoop, List.append_eq]
    rw [if_neg (hpre x (by simp)), ih (fun y hy => hpre y (by simp [hy]))]
    split <;> rfl

/-- C3 (amended): `readNextFrameOfDataBlock` returns `false` without an
error and without touching the container when no block carries the
requested full path; when the first matching block is found and the step
filter is non-negative, it reads and advances that block's reading
cursor exactly when the step of the block's next unread frame equals the
filter, and otherwise returns `false` leaving the container unchanged;
when the filter is negative, the filter imposes no condition and the
block's next frame is read — succeeding, and advancing the cursor,
exactly when an unread frame remains. -/
theorem readNextFrameOfDataBlock_spec (c : Container) (path : String)
    (filter : Int) :
    ((∀ b ∈ c.dataBlocks, b.fullName ≠ path) →
      c.readNextFrameOfDataBlock path filter = (false, c)) ∧
    (∀ pre b post, c.dataBlocks = pre ++ b :: post →
      (∀ x ∈ pre, x.fullName ≠ path) → b.fullName = path →
      ((0 ≤ filter → b.getStepOfNextReadingFrame = filter →
        c.readNextFrameOfDataBlock path filter =
          (true, { c with dataBlocks := pre ++
            { b with readingFrameIndex := b.readingFrameIndex + 1 } :: post })) ∧
      (0 ≤ filter → b.getStepOfNextReadingFrame ≠ filter →
        c.readNextFrameOfDataBlock path filter = (false, c)) ∧
      (filter < 0 →
        c.readNextFrameOfDataBlock path filter =
          ((b.readNextFrame).1,
            { c with dataBlocks := pre ++ (b.readNextFrame).2 :: post }) ∧
        ((b.readNextFrame).1 = true ↔
          b.readingFrameIndex < b.writingFrameIndex)))) := by
  constructor
  · intro h
    simp only [Container.readNextFrameOfDataBlock, readLoop_no_match _ _ _ h]
  · intro pre b post hsplit hpre hb
    have hloop := readLoop_first_match pre b post path filter hpre hb
    refine ⟨?_, ?_, ?_⟩
    · intro hf hstep
      have hunread : b.readingFrameIndex < b.writingFrameIndex := by
        by_contra hcon
        have hneg : b.getStepOfNextReadingFrame = -1 := by
          simp [TimeDataBlock.getStepOfNextReadingFrame, hcon]
        rw [hneg] at hstep
        omega
      have hread : b.readNextFrame =
          (true, { b with readingFrameIndex := b.readingFrameIndex + 1 }) := by
        simp [TimeDataBlock.readNextFrame, hunread]
      simp only [Container.readNextFrameOfDataBlock, hsplit, hloop,
        if_pos (Or.inr hstep), hread]
    · intro hf hstep
      have hcond : ¬ (filter < 0 ∨ b.getStepOfNextReadingFrame = filter) := by
        push_neg
        exact ⟨by omega, hstep⟩
      simp only [Container.readNextFrameOfDataBlock, hsplit, hloop,
        if_neg hcond]
      rw [← hsplit]
    · intro hf
      refine ⟨?_, ?_⟩
      · simp only [Container.readNextFrameOfDataBlock, hsplit, hloop,
          if_pos (Or.inl hf)]
      · constructor
        · intro hr
          by_contra hcon
          simp [TimeDataBlock.readNextFrame, hcon] at hr
        · intro hu
          simp [TimeDataBlock.readNextFrame, hu]

/-- A container whose only block ("position") has no unread frame left
(nothing was ever written to it). -/
def cexEmptyBlock : Container :=
  { file := 2, filemode := 'r',
    dataBlocks := [{ fullName := "/particles/system/position",
                     writingInterval := 0, steps := [], times := [],
                     writingFrameIndex := 0, readingFrameIndex := 0 }] }

/-- C3 counterexample: a block matches the requested path and the step
filter is negative, yet no read happens — `readNextFrameOfDataBlock`
returns `false` and leaves the container (in particular the block's
reading cursor) unchanged, because the matched block has no unread
frame.  This refutes the claim that a negative step filter reads
unconditionally. -/
theorem readNextFrame_negative_filter_no_read :
    cexEmptyBlock.dataBlocks.map (fun b => b.fullName) =
      ["/particles/system/position"] ∧
    cexEmptyBlock.readNextFrameOfDataBlock "/particles/system/position" (-1) =
      (false, cexEmptyBlock) := by
  exact ⟨rfl, rfl⟩

/-- A container whose only block ("position") holds one unread frame at
step 7 with time 3. -/
def oneFrameContainer : Container :=
  { file := 2, filemode := 'r',
    dataBlocks := [{ fullName := "/particles/system/position",
                     writingInterval := 0, steps := [7], times := [3],
                     writingFrameIndex := 1, readingFrameIndex := 0 }] }

/-- Witness for C3 (amended): on the one-frame container, a wrong path
yields `false` with no state change; with the matching path, filter 7
reads and advances, filter 8 rejects with no state change, and filter
`-1` reads because an unread frame remains. -/
theorem readNextFrameOfDataBlock_spec_witness :
    (oneFrameContainer.readNextFrameOfDataBlock "/no/such/block" 7 =
      (false, oneFrameContainer)) ∧
    (oneFrameContainer.readNextFrameOfDataBlock "/particles/system/position" 7 =
      (true, { oneFrameContainer with dataBlocks :=
        [] ++ { oneFrameContainer.dataBlocks.headD (Container.newBlock "" 0) with
                readingFrameIndex := 1 } :: [] })) ∧
    (oneFrameContainer.readNextFrameOfDataBlock "/particles/system/position" 8 =
      (false, oneFrameContainer)) ∧
    (oneFrameContainer.readNextFrameOfDataBlock "/particles/system/position" (-1)).1 =
      true :=
  ⟨(readNextFrameOfDataBlock_spec oneFrameContainer "/no/such/block" 7).1
      (by decide),
    ((readNextFrameOfDataBlock_spec oneFrameContainer
        "/particles/system/position" 7).2 []
        (oneFrameContainer.dataBlocks.headD (Container.newBlock "" 0)) []
        rfl (by decide) rfl).1 (by decide) (by decide),
    ((readNextFrameOfDataBlock_spec oneFrameContainer
        "/particles/system/position" 8).2 []
        (oneFrameContainer.dataBlocks.headD (Container.newBlock "" 0)) []
        rfl (by decide) rfl).2.1 (by decide) (by decide),
    by
      have h := ((readNextFrameOfDataBlock_spec oneFrameContainer
          "/particles/system/position" (-1)).2 []
          (oneFrameContainer.dataBlocks.headD (Container.newBlock "" 0)) []
          rfl (by decide) rfl).2.2 (by decide)
      rw [h.1]
      exact h.2.mpr (by decide)⟩

theorem foldl_min_spec {α : Type} [LinearOrder α] (l : List α) (a : α) :
    (l.foldl min a = a ∨ l.foldl min a ∈ l) ∧
    l.foldl min a ≤ a ∧ ∀ x ∈ l, l.foldl min a ≤ x := by
  induction l generalizing a with
  | nil => simp
  | cons y ys ih =>
    obtain ⟨h1, h2, h3⟩ := ih (min a y)
    simp only [List.foldl_cons]
    refine ⟨?_, le_trans h2 (min_le_left a y), ?_⟩
    · rcases h1 with h | h
      · rcases min_choice a y with hm | hm
        · exact Or.inl (by rw [h, hm])
        · exact Or.inr (by rw [h, hm]; simp)
      · exact Or.inr (by simp [h])
    · intro x hx
      rcases List.mem_cons.mp hx with rfl | hx
      · exact le_trans h2 (min_le_right a x)
      · exact h3 x hx

theorem foldl_max_spec {α : Type} [LinearOrder α] (l : List α) (a : α) :
    (l.foldl max a = a ∨ l.foldl max a ∈ l) ∧
    a ≤ l.foldl max a ∧ ∀ x ∈ l, x ≤ l.foldl max a := by
  induction l generalizing a with
  | nil => simp
  | cons y ys ih =>
    obtain ⟨h1, h2, h3⟩ := ih (max a y)
    simp only [List.foldl_cons]
    refine ⟨?_, le_trans (le_max_left a y) h2, ?_⟩
    · rcases h1 with h | h
      · rcases max_choice a y with hm | hm
        · exact Or.inl (by rw [h, hm])
        · exact Or.inr (by rw [h, hm]; simp)
      · exact Or.inr (by simp [h])
    · intro x hx
      rcases List.mem_cons.mp hx with rfl | hx
      · exact le_trans (le_max_right a x) h2
      · exact h3 x hx

theorem firstTimeFold_fst (l : List TimeDataBlock) (q : ℚ) (bb : Bool) :
    (l.foldl Container.firstTimeFold (q, bb)).1 =
      (l.map (fun b => b.getTimeOfFrame 0)).foldl min q := by
  induction l generalizing q bb with
  | nil => rfl
  | cons b rest ih =>
    simp only [List.foldl_cons, List.map_cons, Container.firstTimeFold]
    exact ih (min q (b.getTimeOfFrame 0)) true

theorem firstTimeFold_snd (l : List TimeDataBlock) (q : ℚ) (bb : Bool) :
    (l.foldl Container.firstTimeFold (q, bb)).2 = (bb || !l.isEmpty) := by
  induction l generalizing q bb with
  | nil => simp
  | cons b rest ih =>
    simp only [List.foldl_cons, Container.firstTimeFold]
    rw [ih]
    simp

/-- A block contributes to `getFinalTimeFromAllDataBlocks` exactly when
its frame count is at least one (`numberOfFrames() < 1` skips it). -/
def hasFrames (b : TimeDataBlock) : Bool := ¬ b.numberOfFrames < 1

theorem finalTimeFold_fst (l : List TimeDataBlock) (q : ℚ) (bb : Bool) :
    (l.foldl Container.finalTimeFold (q, bb)).1 =
      ((l.filter hasFrames).map
        (fun b => b.getTimeOfFrame (b.numberOfFrames - 1))).foldl max q := by
  induction l generalizing q bb with
  | nil => rfl
  | cons b rest ih =>
    by_cases hb : b.numberOfFrames < 1
    · simp only [List.foldl_cons, Container.finalTimeFold, if_pos hb]
      rw [ih, List.filter_cons_of_neg (by simp [hasFrames, hb])]
    · simp only [List.foldl_cons, Container.finalTimeFold, if_neg hb]
      rw [ih, List.filter_cons_of_pos (by simp [hasFrames, hb])]
      rfl

theorem finalTimeFold_snd (l : List TimeDataBlock) (q : ℚ) (bb : Bool) :
    (l.foldl Container.finalTimeFold (q, bb)).2 =
      (bb || !(l.filter hasFrames).isEmpty) := by
  induction l generalizing q bb with
  | nil => simp
  | cons b rest ih =>
    by_cases hb : b.numberOfFrames < 1
    · simp only [List.foldl_cons, Container.finalTimeFold, if_pos hb]
      rw [ih, List.filter_cons_of_neg (by simp [hasFrames, hb])]
    · simp only [List.foldl_cons, Container.finalTimeFold, if_neg hb]
      rw [ih, List.filter_cons_of_pos (by simp [hasFrames, hb])]
      simp

/-- C4 (amended): over every container whose blocks each hold at least
one written frame, whose first-frame times do not exceed the largest
representable `real`, and whose last-frame times are non-negative,
`getFirstTimeFromAllDataBlocks` returns the minimum over all blocks of
the time of the block's first frame and `getFinalTimeFromAllDataBlocks`
returns the maximum over all blocks of the time of the block's last
written frame; for a container with no blocks both return the sentinel
`-1`.  (The restrictions are forced: the final-time maximum starts at
`0`, so a negative last-frame time is clipped, and zero-frame blocks are
skipped by the final-time scan while their first-frame lookup is
undefined.) -/
theorem firstFinalTimeFromAllDataBlocks_spec (c : Container)
    (hne : c.dataBlocks ≠ [])
    (hfr : ∀ b ∈ c.dataBlocks, 0 < b.writingFrameIndex)
    (hrep : ∀ b ∈ c.dataBlocks, b.getTimeOfFrame 0 ≤ realMax)
    (hnn : ∀ b ∈ c.dataBlocks,
      0 ≤ b.getTimeOfFrame (b.numberOfFrames - 1)) :
    (c.getFirstTimeFromAllDataBlocks ∈
        c.dataBlocks.map (fun b => b.getTimeOfFrame 0) ∧
      ∀ x ∈ c.dataBlocks.map (fun b => b.getTimeOfFrame 0),
        c.getFirstTimeFromAllDataBlocks ≤ x) ∧
    (c.getFinalTimeFromAllDataBlocks ∈
        c.dataBlocks.map (fun b => b.getTimeOfFrame (b.numberOfFrames - 1)) ∧
      ∀ x ∈ c.dataBlocks.map (fun b => b.getTimeOfFrame (b.numberOfFrames - 1)),
        x ≤ c.getFinalTimeFromAllDataBlocks) ∧
    (∀ c2 : Container, c2.dataBlocks = [] →
      c2.getFirstTimeFromAllDataBlocks = -1 ∧
      c2.getFinalTimeFromAllDataBlocks = -1) := by
  have hfilter : c.dataBlocks.filter hasFrames = c.dataBlocks := by
    rw [List.filter_eq_self]
    intro b hb
    have hb1 := hfr b hb
    simp [hasFrames, TimeDataBlock.numberOfFrames]
    omega
  refine ⟨?_, ?_, ?_⟩
  · have hval : c.getFirstTimeFromAllDataBlocks =
        (c.dataBlocks.map (fun b => b.getTimeOfFrame 0)).foldl min realMax := by
      simp only [Container.getFirstTimeFromAllDataBlocks]
      rw [firstTimeFold_snd, firstTimeFold_fst]
      have hie : !c.dataBlocks.isEmpty = true := by
        simpa [List.isEmpty_iff] using hne
      simp [hie]
      exact fun h0 => absurd h0 hne
    obtain ⟨h1, _, h3⟩ :=
      foldl_min_spec (c.dataBlocks.map (fun b => b.getTimeOfFrame 0)) realMax
    rw [← hval] at h1 h3
    refine ⟨?_, h3⟩
    rcases h1 with h | h
    · obtain ⟨b0, hb0⟩ := List.exists_mem_of_ne_nil c.dataBlocks hne
      have hmem : b0.getTimeOfFrame 0 ∈
          c.dataBlocks.map (fun b => b.getTimeOfFrame 0) :=
        List.mem_map_of_mem _ hb0
      have hle := h3 _ hmem
      have hge := hrep b0 hb0
      have heq : c.getFirstTimeFromAllDataBlocks = b0.getTimeOfFrame 0 :=
        le_antisymm hle (by rw [h]; exact hge)
      rw [heq]
      exact hmem
    · exact h
  · have hval : c.getFinalTimeFromAllDataBlocks =
        (c.dataBlocks.map
          (fun b => b.getTimeOfFrame (b.numberOfFrames - 1))).foldl max 0 := by
      simp only [Container.getFinalTimeFromAllDataBlocks]
      rw [finalTimeFold_snd, finalTimeFold_fst, hfilter]
      have hie : !c.dataBlocks.isEmpty = true := by
        simpa [List.isEmpty_iff] using hne
      simp [hie]
      exact fun h0 => absurd h0 hne
    obtain ⟨h1, _, h3⟩ := foldl_max_spec
      (c.dataBlocks.map (fun b => b.getTimeOfFrame (b.numberOfFrames - 1))) 0
    rw [← hval] at h1 h3
    refine ⟨?_, h3⟩
    rcases h1 with h | h
    · obtain ⟨b0, hb0⟩ := List.exists_mem_of_ne_nil c.dataBlocks hne
      have hmem : b0.getTimeOfFrame (b0.numberOfFrames - 1) ∈
          c.dataBlocks.map (fun b => b.getTimeOfFrame (b.numberOfFrames - 1)) :=
        List.mem_map_of_mem _ hb0
      have hle := h3 _ hmem
      have hge := hnn b0 hb0
      have heq : c.getFinalTimeFromAllDataBlocks =
          b0.getTimeOfFrame (b0.numberOfFrames - 1) :=
        le_antisymm (by rw [h]; exact hge) hle
      rw [heq]
      exact hmem
    · exact h
  · intro c2 h2
    constructor
    · simp only [Container.getFirstTimeFromAllDataBlocks]
      rw [firstTimeFold_snd]
      simp [h2]
    · simp only [Container.getFinalTimeFromAllDataBlocks]
      rw [finalTimeFold_snd]
      simp [h2]

/-- A container holding a single one-frame block whose only (hence last)
frame has the negative time `-2`. -/
def negTimeContainer : Container :=
  { file := 2, filemode := 'r',
    dataBlocks := [{ fullName := "/particles/system/position",
                     writingInterval := 0, steps := [0], times := [-2],
                     writingFrameIndex := 1, readingFrameIndex := 0 }] }

/-- C4 counterexample: the container has one block and that block's last
written frame has time `-2`, so the claimed maximum over all blocks of
the last-frame times is `-2`; the code returns `0` (its running maximum
starts at `0`), which is not that maximum. -/
theorem getFinalTime_not_block_max :
    negTimeContainer.dataBlocks.map
        (fun b => b.getTimeOfFrame (b.numberOfFrames - 1)) = [(-2 : ℚ)] ∧
    negTimeContainer.getFinalTimeFromAllDataBlocks = 0 ∧
    (0 : ℚ) ≠ -2 := by
  refine ⟨by decide, by decide, by decide⟩

/-- Witness for C4 (amended): on the one-frame container with time 3,
the first- and final-time scans both report 3; on a blockless container
both report the sentinel `-1`. -/
theorem firstFinalTimeFromAllDataBlocks_spec_witness :
    (oneFrameContainer.getFirstTimeFromAllDataBlocks ∈
        oneFrameContainer.dataBlocks.map (fun b => b.getTimeOfFrame 0) ∧
      ∀ x ∈ oneFrameContainer.dataBlocks.map (fun b => b.getTimeOfFrame 0),
        oneFrameContainer.getFirstTimeFromAllDataBlocks ≤ x) ∧
    (oneFrameContainer.getFinalTimeFromAllDataBlocks ∈
        oneFrameContainer.dataBlocks.map
          (fun b => b.getTimeOfFrame (b.numberOfFrames - 1)) ∧
      ∀ x ∈ oneFrameContainer.dataBlocks.map
          (fun b => b.getTimeOfFrame (b.numberOfFrames - 1)),
        x ≤ oneFrameContainer.getFinalTimeFromAllDataBlocks) ∧
    (∀ c2 : Container, c2.dataBlocks = [] →
      c2.getFirstTimeFromAllDataBlocks = -1 ∧
      c2.getFinalTimeFromAllDataBlocks = -1) :=
  firstFinalTimeFromAllDataBlocks_spec oneFrameContainer (by decide)
    (by decide) (by decide) (by decide)

theorem stepFold_spec (l : List TimeDataBlock) (acc : Int × ℚ) :
    (l.foldl Container.stepFold acc).1 ≤ acc.1 ∧
    (∀ b ∈ l, 0 ≤ b.getStepOfNextReadingFrame →
      (l.foldl Container.stepFold acc).1 ≤ b.getStepOfNextReadingFrame) ∧
    (l.foldl Container.stepFold acc = acc ∨
      ∃ b ∈ l, 0 ≤ b.getStepOfNextReadingFrame ∧
        b.getStepOfNextReadingFrame = (l.foldl Container.stepFold acc).1 ∧
        b.getTimeOfFrame (b.readingFrameIndex : Int) =
          (l.foldl Container.stepFold acc).2) := by
  induction l generalizing acc with
  | nil => simp
  | cons y ys ih =>
    obtain ⟨h1, h2, h3⟩ := ih (Container.stepFold acc y)
    simp only [List.foldl_cons]
    have hstep : (Container.stepFold acc y).1 ≤ acc.1 := by
      simp only [Container.stepFold]
      split
      · next h => exact le_of_lt h.2
      · exact le_refl _
    refine ⟨le_trans h1 hstep, ?_, ?_⟩
    · intro b hb hbs
      rcases List.mem_cons.mp hb with rfl | hb
      · by_cases hy : 0 ≤ b.getStepOfNextReadingFrame ∧
            b.getStepOfNextReadingFrame < acc.1
        · have hval : (Container.stepFold acc b).1 = b.getStepOfNextReadingFrame := by
            simp only [Container.stepFold, if_pos hy]
          exact hval ▸ h1
        · have hge : acc.1 ≤ b.getStepOfNextReadingFrame := by
            rcases not_and_or.mp hy with h | h
            · exact absurd hbs h
            · omega
          exact le_trans (le_trans h1 hstep) hge
      · exact h2 b hb hbs
    · rcases h3 with h | h
      · by_cases hy : 0 ≤ y.getStepOfNextReadingFrame ∧
            y.getStepOfNextReadingFrame < acc.1
        · right
          refine ⟨y, by simp, hy.1, ?_, ?_⟩
          · rw [h]
            simp only [Container.stepFold, if_pos hy]
          · rw [h]
            simp only [Container.stepFold, if_pos hy]
        · left
          rw [h]
          simp only [Container.stepFold, if_neg hy]
      · right
        obtain ⟨b, hb, hb0, hb1, hb2⟩ := h
        exact ⟨b, by simp [hb], hb0, hb1, hb2⟩

/-- C2 (amended): for every container state in which at least one block
has an unread frame, and in which every block with an unread frame has a
next-unread step inside `[0, int64Max)` (a negative stored step is
indistinguishable from the exhausted-block sentinel and is skipped by the
scan, and a step equal to `int64Max` cannot improve on the initial
minimum), `getNextStepAndTimeToRead` returns the minimum over all blocks
with unread frames of the step of the next unread frame, paired with the
time of the next unread frame of a block attaining that minimum. -/
theorem getNextStepAndTimeToRead_spec (c : Container)
    (hgood : ∀ b ∈ c.dataBlocks, b.readingFrameIndex < b.writingFrameIndex →
      0 ≤ b.getStepOfNextReadingFrame ∧ b.getStepOfNextReadingFrame < int64Max)
    (hex : ∃ b ∈ c.dataBlocks, b.readingFrameIndex < b.writingFrameIndex) :
    (∃ b ∈ c.dataBlocks, b.readingFrameIndex < b.writingFrameIndex ∧
      b.getStepOfNextReadingFrame = c.getNextStepAndTimeToRead.1 ∧
      b.getTimeOfFrame (b.readingFrameIndex : Int) =
        c.getNextStepAndTimeToRead.2) ∧
    (∀ b ∈ c.dataBlocks, b.readingFrameIndex < b.writingFrameIndex →
      c.getNextStepAndTimeToRead.1 ≤ b.getStepOfNextReadingFrame) := by
  have hres : c.getNextStepAndTimeToRead =
      c.dataBlocks.foldl Container.stepFold (int64Max, realMax) := rfl
  obtain ⟨h1, h2, h3⟩ := stepFold_spec c.dataBlocks (int64Max, realMax)
  have hunread_iff : ∀ b ∈ c.dataBlocks,
      (b.readingFrameIndex < b.writingFrameIndex ↔
        0 ≤ b.getStepOfNextReadingFrame) := by
    intro b hb
    constructor
    · exact fun h => (hgood b hb h).1
    · intro h
      by_contra hcon
      have hneg : b.getStepOfNextReadingFrame = -1 := by
        simp [TimeDataBlock.getStepOfNextReadingFrame, hcon]
      omega
  obtain ⟨b0, hb0, hb0u⟩ := hex
  have hlt : c.getNextStepAndTimeToRead.1 < int64Max := by
    have := h2 b0 hb0 ((hunread_iff b0 hb0).mp hb0u)
    rw [← hres] at this
    exact lt_of_le_of_lt this (hgood b0 hb0 hb0u).2
  rcases h3 with h | h
  · exfalso
    rw [← hres] at h
    rw [h] at hlt
    exact lt_irrefl _ hlt
  · obtain ⟨b, hb, hbs, hb1, hb2⟩ := h
    rw [← hres] at hb1 hb2
    refine ⟨⟨b, hb, (hunread_iff b hb).mpr hbs, hb1, hb2⟩, ?_⟩
    intro b2 hb2m hb2u
    have := h2 b2 hb2m ((hunread_iff b2 hb2m).mp hb2u)
    rw [← hres] at this
    exact this

/-- A container holding a single block with one unread frame whose
stored step is negative. -/
def negStepContainer : Container :=
  { file := 2, filemode := 'r',
    dataBlocks := [{ fullName := "/observables/lambda", writingInterval := 0,
                     steps := [-1], times := [5], writingFrameIndex := 1,
                     readingFrameIndex := 0 }] }

/-- C2 counterexample: the only block still has an unread frame (first
conjunct) and its next unread step is `-1`, so the minimum over blocks
with unread frames of the next-unread step is `-1`; but the scan skips
negative steps, so the returned step is the untouched sentinel
`int64Max` rather than that minimum. -/
theorem getNextStepAndTime_skips_negative_steps :
    negStepContainer.dataBlocks.map
      (fun b => (decide (b.readingFrameIndex < b.writingFrameIndex),
        b.getStepOfNextReadingFrame)) = [(true, -1)] ∧
    negStepContainer.getNextStepAndTimeToRead.1 = int64Max := by
  exact ⟨by decide, by decide⟩

/-- The two-block container of the spec's step-filtered-read example:
"position" and "force", each with frames at steps 0 and 10, nothing read
yet. -/
def twoBlockContainer : Container :=
  { file := 2, filemode := 'r',
    dataBlocks :=
      [{ fullName := "/particles/system/position", writingInterval := 0,
         steps := [0, 10], times := [0, 1], writingFrameIndex := 2,
         readingFrameIndex := 0 },
       { fullName := "/particles/system/force", writingInterval := 0,
         steps := [0, 10], times := [0, 1], writingFrameIndex := 2,
         readingFrameIndex := 0 }] }

/-- Witness for C2 (amended): on the two-block container with unread
frames at steps 0 and 10, the scan's result is attained by a block with
an unread frame and bounds every block's next unread step from below. -/
theorem getNextStepAndTimeToRead_spec_witness :
    (∃ b ∈ twoBlockContainer.dataBlocks,
      b.readingFrameIndex < b.writingFrameIndex ∧
      b.getStepOfNextReadingFrame = twoBlockContainer.getNextStepAndTimeToRead.1 ∧
      b.getTimeOfFrame (b.readingFrameIndex : Int) =
        twoBlockContainer.getNextStepAndTimeToRead.2) ∧
    (∀ b ∈ twoBlockContainer.dataBlocks,
      b.readingFrameIndex < b.writingFrameIndex →
      twoBlockContainer.getNextStepAndTimeToRead.1 ≤
        b.getStepOfNextReadingFrame) :=
  getNextStepAndTimeToRead_spec twoBlockContainer (by decide) (by decide)

end H5md

namespace Gmxfio

theorem outputPositionsLoop_spec (l : List Fio) (acc : List FilePos) :
    outputPositionsLoop l acc = acc ++ (l.filter outputFileFilter).map snapshotOf := by
  induction l generalizing acc with
  | nil => simp [outputPositionsLoop]
  | cons cur rest ih =>
    by_cases h : outputFileFilter cur
    · rw [outputPositionsLoop, if_pos h, ih, List.filter_cons_of_pos h]
      simp
    · rw [outputPositionsLoop, if_neg h, ih,
        List.filter_cons_of_neg (by simpa using h)]

/-- An open write-only ("w", not read-write) log handle: its checksum is
never computable, so its snapshot records the `-1` checksum size. -/
def writeOnlyHandle : Fio :=
  { uid := 2, iFTP := .efLOG, fn := "md.log", bRead := false,
    bReadWrite := false, bStdio := false, bOpen := true, bDebug := false,
    bLargerThanOffT := false, fp := some { bytes := [4, 5], pos := 2 } }

/-- An open read-write trajectory handle with three bytes written and the
position at the end. -/
def rwHandle : Fio :=
  { uid := 3, iFTP := .efTRR, fn := "traj.trr", bRead := false,
    bReadWrite := true, bStdio := false, bOpen := true, bDebug := false,
    bLargerThanOffT := false, fp := some { bytes := [1, 2, 3], pos := 3 } }

/-- An open, non-read, non-standard-stream checkpoint handle. -/
def cptHandle : Fio :=
  { uid := 4, iFTP := .efCPT, fn := "state.cpt", bRead := false,
    bReadWrite := true, bStdio := false, bOpen := true, bDebug := false,
    bLargerThanOffT := false, fp := some { bytes := [7, 7], pos := 2 } }

/-- C8 counterexample: an open, non-read, non-standard-stream handle for
a checkpoint file gets no snapshot entry at all — the traversal also
excludes checkpoint (`efCPT`) and debug (`efNR`) file types, which the
claim omits. -/
theorem output_positions_skip_checkpoint :
    cptHandle.bOpen = true ∧ cptHandle.bRead = false ∧
    cptHandle.bStdio = false ∧
    gmx_fio_get_output_file_positions [cptHandle] = [] := by
  exact ⟨rfl, rfl, rfl, rfl⟩

/-- C8 (amended): `gmx_fio_get_output_file_positions` returns one entry,
in traversal order, for exactly the open handles that are not read-mode,
not standard streams, not checkpoint files and not debug files; each
entry snapshots that handle's file name and current write position, and
— when the handle is read-write, its position is within the written
bytes, and its offset fits the offset type — a checksum digesting
exactly `min(position, 1048576)` bytes ending at that position; a
checksum failure (a non-read-write handle, or a short read) is recorded
as a `-1` checksum size for that entry while the traversal continues
with the remaining handles, never terminating the process. -/
theorem gmx_fio_get_output_file_positions_spec (reg : Registry) :
    gmx_fio_get_output_file_positions reg =
      (reg.filter outputFileFilter).map snapshotOf ∧
    (∀ fio f, fio.fp = some f → fio.bLargerThanOffT = false →
      (snapshotOf fio).filename = fio.fn ∧
      (snapshotOf fio).offset = (f.pos : Int)) ∧
    (∀ fio f, fio.fp = some f → fio.bLargerThanOffT = false →
      fio.bReadWrite = true → f.pos ≤ f.bytes.length →
      (snapshotOf fio).chksum_size = ((min f.pos CPT_CHK_LEN : Nat) : Int) ∧
      (snapshotOf fio).chksum.length = min f.pos CPT_CHK_LEN ∧
      ∀ j : Nat, j < min f.pos CPT_CHK_LEN →
        (snapshotOf fio).chksum.getD j 0 =
          f.bytes.getD (f.pos - min f.pos CPT_CHK_LEN + j) 0) ∧
    (∀ fio f, fio.fp = some f → fio.bLargerThanOffT = false →
      (fio.bReadWrite = false ∨ f.bytes.length < f.pos) →
      (snapshotOf fio).chksum_size = -1) := by
  refine ⟨outputPositionsLoop_spec reg [], ?_, ?_, ?_⟩
  · intro fio f hfp hoff
    constructor
    · simp [snapshotOf, hoff]
    · simp [snapshotOf, hoff, filePosition, hfp]
  · intro fio f hfp hoff hrw hlen
    have hdata : ((f.bytes.drop (f.pos - min f.pos CPT_CHK_LEN)).take
        (f.pos - (f.pos - min f.pos CPT_CHK_LEN))).length =
        f.pos - (f.pos - min f.pos CPT_CHK_LEN) := by
      rw [List.length_take, List.length_drop]
      have hm : min f.pos CPT_CHK_LEN ≤ f.pos := Nat.min_le_left _ _
      omega
    have hmd5 : gmx_fio_int_get_file_md5 fio f.pos =
        (((f.pos - (f.pos - min f.pos CPT_CHK_LEN) : Nat) : Int),
          (f.bytes.drop (f.pos - min f.pos CPT_CHK_LEN)).take
            (f.pos - (f.pos - min f.pos CPT_CHK_LEN))) := by
      simp [gmx_fio_int_get_file_md5, hfp, hrw, md5Digest, hdata]
    have hrl : f.pos - (f.pos - min f.pos CPT_CHK_LEN) = min f.pos CPT_CHK_LEN := by
      have hm : min f.pos CPT_CHK_LEN ≤ f.pos := Nat.min_le_left _ _
      omega
    have hsnap : snapshotOf fio =
        { filename := fio.fn, offset := (f.pos : Int),
          chksum_size := ((min f.pos CPT_CHK_LEN : Nat) : Int),
          chksum := (f.bytes.drop (f.pos - min f.pos CPT_CHK_LEN)).take
            (min f.pos CPT_CHK_LEN) } := by
      rw [hrl] at hmd5
      simp [snapshotOf, hoff, filePosition, hfp, hmd5]
    rw [hsnap]
    refine ⟨rfl, ?_, ?_⟩
    · rw [List.length_take, List.length_drop]
      have hm : min f.pos CPT_CHK_LEN ≤ f.pos := Nat.min_le_left _ _
      omega
    · intro j hj
      rw [List.getD_eq_getElem?_getD _ _ _, List.getD_eq_getElem?_getD _ _ _,
        List.getElem?_take, if_pos hj, List.getElem?_drop]
  · intro fio f hfp hoff hbad
    rcases hbad with h | h
    · simp [snapshotOf, hoff, gmx_fio_int_get_file_md5, hfp, h, filePosition]
    · have hdata : ¬ ((f.bytes.drop (f.pos - min f.pos CPT_CHK_LEN)).take
          (f.pos - (f.pos - min f.pos CPT_CHK_LEN))).length =
          f.pos - (f.pos - min f.pos CPT_CHK_LEN) := by
        rw [List.length_take, List.length_drop]
        have hm : min f.pos CPT_CHK_LEN ≤ f.pos := Nat.min_le_left _ _
        have hcpt : 0 < CPT_CHK_LEN := by decide
        rcases Nat.lt_or_ge f.pos CPT_CHK_LEN with hc | hc
        · have : min f.pos CPT_CHK_LEN = f.pos := by omega
          omega
        · have : min f.pos CPT_CHK_LEN = CPT_CHK_LEN := by omega
          omega
      by_cases hrw : fio.bReadWrite
      · have hmd5 : gmx_fio_int_get_file_md5 fio f.pos = (-1, []) := by
          simp only [gmx_fio_int_get_file_md5, hfp]
          rw [if_pos hrw, if_neg hdata]
        simp [snapshotOf, hoff, filePosition, hfp, hmd5]
      · simp [snapshotOf, hoff, gmx_fio_int_get_file_md5, hfp, hrw, filePosition]

/-- Witness for C8 (amended): a registry holding a read-write trajectory
handle, a write-only log handle and a checkpoint handle; the theorem is
applied to it, to the read-write handle with its three written bytes,
and to the write-only handle. -/
theorem gmx_fio_get_output_file_positions_spec_witness :
    (gmx_fio_get_output_file_positions [rwHandle, writeOnlyHandle, cptHandle] =
      ([rwHandle, writeOnlyHandle, cptHandle].filter outputFileFilter).map
        snapshotOf) ∧
    ((snapshotOf rwHandle).chksum_size =
        ((min 3 CPT_CHK_LEN : Nat) : Int) ∧
      (snapshotOf rwHandle).chksum.length = min 3 CPT_CHK_LEN ∧
      ∀ j : Nat, j < min 3 CPT_CHK_LEN →
        (snapshotOf rwHandle).chksum.getD j 0 =
          ([1, 2, 3] : List Nat).getD (3 - min 3 CPT_CHK_LEN + j) 0) ∧
    ((snapshotOf writeOnlyHandle).chksum_size = -1) :=
  ⟨(gmx_fio_get_output_file_positions_spec
      [rwHandle, writeOnlyHandle, cptHandle]).1,
    (gmx_fio_get_output_file_positions_spec []).2.2.1 rwHandle
      { bytes := [1, 2, 3], pos := 3 } rfl rfl rfl (by decide),
    (gmx_fio_get_output_file_positions_spec []).2.2.2 writeOnlyHandle
      { bytes := [4, 5], pos := 2 } rfl rfl (Or.inl rfl)⟩

end Gmxfio
